import Mathlib

/-!
Verification development for the glauth LDAP relay handler
(pkg/handler/ldap.go).  The Go code is shallowly embedded: strings are
`List Char`, machine durations (`time.Duration`, int64 nanoseconds) are
`Nat`, pointers that may be nil are `Option`, Go run-time faults are an
explicit `GoFault` error value, and network effects (dialing, the
upstream Search/Bind, TOTP validation) are oracle function parameters.
Each definition is annotated with the source lines it embeds.
-/

set_option maxRecDepth 10000

/-- Run-time faults the Go code can hit (nil pointer dereference, slice
index out of range, failed type assertion).  A result of `.error f`
models the Go process aborting with fault `f`. -/
inductive GoFault
  | nilPointerDeref
  | indexOutOfRange
  | typeAssertFail
deriving DecidableEq, Repr

/-- Status of one upstream backend (ldap.go:47-52). -/
inductive LdapBackendStatus
  | down
  | up
deriving DecidableEq, Repr

/-- One upstream backend endpoint (ldap.go:54-60).  `ping` is the
`time.Duration` latency in nanoseconds. -/
structure LdapBackend where
  scheme : List Char
  hostname : List Char
  port : Nat
  status : LdapBackendStatus
  ping : Nat
deriving DecidableEq, Repr

/-- The zero value `ldapBackend{}` (Go zero value: empty strings, port 0,
status Down = 0, ping 0). -/
def emptyBackend : LdapBackend :=
  { scheme := [], hostname := [], port := 0, status := .down, ping := 0 }

/-- time.ParseDuration("30m") in nanoseconds (ldap.go:450). -/
def forever : Nat := 1800000000000

/-- The loop body of getBestServer (ldap.go:455-460): scan the registry
keeping the first Up server with strictly smallest ping seen so far. -/
def bestLoop : List LdapBackend → LdapBackend → Nat → LdapBackend × Nat
  | [], fav, bp => (fav, bp)
  | s :: rest, fav, bp =>
    if s.status = .up ∧ s.ping < bp then bestLoop rest s s.ping
    else bestLoop rest fav bp

/-- getBestServer (ldap.go:448-466): error iff no server updated the
running best ping below the 30-minute sentinel. -/
def getBestServer (servers : List LdapBackend) : Except (List Char) LdapBackend :=
  let r := bestLoop servers emptyBackend forever
  if r.2 = forever then .error ("No healthy servers found".toList)
  else .ok r.1

/-- Eligibility for selection as the code actually implements it: up and
ping strictly below the 30-minute sentinel. -/
def eligible (s : LdapBackend) : Bool :=
  decide (s.status = .up ∧ s.ping < forever)

/-- Keep-first running minimum by ping. -/
def foldMin (b : LdapBackend) (l : List LdapBackend) : LdapBackend :=
  l.foldl (fun best s => if s.ping < best.ping then s else best) b

/-- Modelled from the spec (amended by the 30-minute sentinel the code
uses): among endpoints with status up and latency below 30 minutes,
return the first one with minimal latency (ties resolve to registry
order); error exactly when there is none. -/
def specBestServer (servers : List LdapBackend) : Except (List Char) LdapBackend :=
  match servers.filter eligible with
  | [] => .error ("No healthy servers found".toList)
  | e :: es => .ok (foldMin e es)

/-- fmt.Sprintf("%s:%d", hostname, port) (ldap.go:378,409). -/
def dialDest (s : LdapBackend) : List Char :=
  s.hostname ++ ':' :: Nat.toDigits 10 s.port

/-- A client net.Conn: its two addresses plus an abstract handle used to
track which connections have been closed. -/
structure NetConn where
  localAddr : List Char
  remoteAddr : List Char
  handle : Nat
deriving DecidableEq, Repr

/-- connID (ldap.go:469-474): the sha-256 hex fingerprint of
local+remote address.  The digest is modelled by the digested string
itself; the claims depend only on connID being a deterministic function
of the address pair. -/
def connID (conn : NetConn) : List Char :=
  conn.localAddr ++ conn.remoteAddr

/-- ldapSession (ldap.go:42-46).  `ldap` is the pooled upstream
connection handle; `none` models a nil *ldap.Conn. -/
structure LdapSession where
  id : List Char
  c : NetConn
  ldap : Option Nat
deriving DecidableEq, Repr

/-- Lookup in the sessions map `h.sessions[id]` (ldap.go:370). -/
def mapLookup (id : List Char) : List (List Char × LdapSession) → Option LdapSession
  | [] => none
  | (k, v) :: rest => if k = id then some v else mapLookup id rest

/-- Go map assignment `h.sessions[id] = s` (ldap.go:397). -/
def mapInsert (id : List Char) (s : LdapSession) :
    List (List Char × LdapSession) → List (List Char × LdapSession)
  | [] => [(id, s)]
  | (k, v) :: rest => if k = id then (id, s) :: rest else (k, v) :: mapInsert id s rest

/-- Go map delete `delete(h.sessions, id)` (ldap.go:328). -/
def mapErase (id : List Char) : List (List Char × LdapSession) → List (List Char × LdapSession)
  | [] => []
  | (k, v) :: rest => if k = id then rest else (k, v) :: mapErase id rest

instance {ε α : Type} [DecidableEq ε] [DecidableEq α] : DecidableEq (Except ε α) := fun x y =>
  match x, y with
  | .error a, .error b => decidable_of_iff (a = b) (by simp)
  | .error _, .ok _ => .isFalse (by simp)
  | .ok _, .error _ => .isFalse (by simp)
  | .ok a, .ok b => decidable_of_iff (a = b) (by simp)

/-- The state getSession reads and writes: the sessions map and the
backend registry (both guarded by the shared lock in Go). -/
structure PoolState where
  sessions : List (List Char × LdapSession)
  servers : List LdapBackend
deriving DecidableEq, Repr

/-- Result of one getSession call, with the observable effects the
claims talk about: whether getBestServer ran, whether a dial was
attempted, and whether the doPing trigger was signalled. -/
structure GetSessionTrace where
  result : Except (List Char) LdapSession
  state : PoolState
  selectedServer : Bool
  dialed : Bool
  pingTriggered : Bool
deriving DecidableEq, Repr

/-- The scheme dispatch of getSession (ldap.go:379-387): dial with TLS
for "ldaps", plainly for "ldap"; any other scheme leaves the Go locals l
and err at their nil zero values (no dial at all).  The Bool records
whether a dial was attempted. -/
def dialSelect (dialTLS : List Char → Bool → Except (List Char) Nat)
    (dialPlain : List Char → Except (List Char) Nat) (insecure : Bool)
    (server : LdapBackend) : Bool × Except (List Char) (Option Nat) :=
  if server.scheme = "ldaps".toList then (true, (dialTLS (dialDest server) insecure).map some)
  else if server.scheme = "ldap".toList then (true, (dialPlain (dialDest server)).map some)
  else (false, .ok none)

/-- getSession (ldap.go:367-401).  `dialTLS`/`dialPlain` are the
ldap.DialTLS / ldap.Dial oracles returning an upstream handle or a dial
error.  When the chosen server's scheme is neither "ldaps" nor "ldap"
a session with a nil upstream is stored (err stayed nil). -/
def getSession (dialTLS : List Char → Bool → Except (List Char) Nat)
    (dialPlain : List Char → Except (List Char) Nat)
    (insecure : Bool) (st : PoolState) (conn : NetConn) : GetSessionTrace :=
  let id := connID conn
  match mapLookup id st.sessions with
  | some s => ⟨.ok s, st, false, false, false⟩
  | none =>
    match getBestServer st.servers with
    | .error e => ⟨.error e, st, true, false, false⟩
    | .ok server =>
      let dialRes := dialSelect dialTLS dialPlain insecure server
      match dialRes.2 with
      | .error e => ⟨.error e, st, true, dialRes.1, true⟩
      | .ok l =>
        let s : LdapSession := ⟨id, conn, l⟩
        ⟨.ok s, { st with sessions := mapInsert id s st.sessions }, true, dialRes.1, false⟩

/-- Result of one Close call: the returned error, the new sessions map,
and the connection handles closed so far (client side and pooled
upstream side). -/
structure CloseTrace where
  errResult : Option (List Char)
  sessions : List (List Char × LdapSession)
  closedClientConns : List Nat
  closedUpstreamConns : List Nat
deriving DecidableEq, Repr

/-- Close (ldap.go:324-332): `conn.Close()` closes the client connection
argument, then the session entry is deleted under the lock; nothing else
is closed and nil is returned. -/
def closeHandler (sessions : List (List Char × LdapSession))
    (closedClientConns closedUpstreamConns : List Nat) (conn : NetConn) : CloseTrace :=
  ⟨none, mapErase (connID conn) sessions,
    conn.handle :: closedClientConns, closedUpstreamConns⟩

/-- ping (ldap.go:404-445): probe every server, recording status and
latency.  The dial oracles return the measured elapsed nanoseconds on
success, none on failure.  Note the scheme consulted for every endpoint
is `h.servers[0].Scheme` (ldap.go:411,417), not the endpoint's own;
`scheme0` is only read inside the loop, so an empty registry does not
fault.  Returns the updated registry and the `healthy` flag. -/
def pingServers (insecure : Bool)
    (dialTLS : List Char → Bool → Option Nat)
    (dialPlain : List Char → Option Nat)
    (servers : List LdapBackend) : List LdapBackend × Bool :=
  let scheme0 : List Char := ((servers.head?).map (fun s => s.scheme)).getD []
  let probed := servers.map (fun s =>
    let r : Option Nat :=
      if scheme0 = "ldaps".toList then dialTLS (dialDest s) insecure
      else if scheme0 = "ldap".toList then dialPlain (dialDest s)
      else none
    match r with
    | none => ({ s with ping := 0, status := .down }, false)
    | some elapsed => ({ s with ping := elapsed, status := .up }, true))
  (probed.map (fun p => p.1), probed.any (fun p => p.2))

/-- The error value ping returns when no server was healthy
(ldap.go:441-444). -/
def pingReturn (healthy : Bool) : Option (List Char) :=
  if healthy then none else some ("No healthy servers".toList)

/-- Whether the process keeps running or has called os.Exit. -/
inductive ProcessOutcome
  | running
  | exited (code : Nat)
deriving DecidableEq, Repr

/-- The two select arms of the monitorServers loop (ldap.go:342-363). -/
inductive MonitorEvent
  | doPingTrigger
  | timerTick
deriving DecidableEq, Repr

/-- One iteration of the monitorServers background loop
(ldap.go:342-363): either select arm runs ping and calls os.Exit(1)
when ping returns an error (exactly when no server is healthy). -/
def monitorCycle (insecure : Bool)
    (dialTLS : List Char → Bool → Option Nat)
    (dialPlain : List Char → Option Nat)
    (_ev : MonitorEvent) (servers : List LdapBackend) :
    ProcessOutcome × List LdapBackend :=
  let r := pingServers insecure dialTLS dialPlain servers
  match pingReturn r.2 with
  | some _ => (.exited 1, r.1)
  | none => (.running, r.1)

/-- config.User restricted to the field Bind reads (OTPSecret). -/
structure User where
  otpSecret : List Char
deriving DecidableEq, Repr

/-- The backend configuration fields Bind reads (BaseDN, NameFormat). -/
structure BackendCfg where
  baseDN : List Char
  nameFormat : List Char
deriving Repr

/-- strings.ToLower for the ASCII range (the bind DNs and attribute
names in the claims are ASCII). -/
def lowerStr (s : List Char) : List Char := s.map Char.toLower

/-- strings.TrimSuffix. -/
def goTrimSuffix (s suf : List Char) : List Char :=
  if suf.isSuffixOf s then s.take (s.length - suf.length) else s

/-- strings.TrimPrefix. -/
def goTrimLeading (s pre : List Char) : List Char :=
  if pre.isPrefixOf s then s.drop pre.length else s

/-- Username extraction in Bind (ldap.go:98-101): lowercase the DN, trim
the lowercased ","+BaseDN suffix, take the part before the first comma,
and trim the NameFormat+"=" leading part (NameFormat is not lowercased
by the code). -/
def extractUserName (backend : BackendCfg) (bindDN : List Char) : List Char :=
  let lowerBindDN := lowerStr bindDN
  let baseDN := lowerStr (',' :: backend.baseDN)
  let part0 := (goTrimSuffix lowerBindDN baseDN).takeWhile (fun c => c ≠ ',')
  goTrimLeading part0 (backend.nameFormat ++ ['='])

/-- The handler-chain walk in Bind (ldap.go:108-118): call each
handler's FindUser, stop at the first that reports found; also break
once the index reaches the configured Count (note the count check runs
after the call, so handler `Count` is still consulted).  `cur` carries
the current (found, user) pair, initially the Go zero values. -/
def chainWalkAux (userName : List Char) (count : Int) :
    List (List Char → Bool × User) → Int → Bool × User → Bool × User
  | [], _, cur => cur
  | h :: rest, i, _ =>
    let r := h userName
    if r.1 then r
    else if i ≥ count then r
    else chainWalkAux userName count rest (i + 1) r

/-- The full chain walk starting from `found := false, user := config.User{}`. -/
def chainWalk (handlers : List (List Char → Bool × User)) (count : Int)
    (userName : List Char) : Bool × User :=
  chainWalkAux userName count handlers 0 (false, { otpSecret := [] })

/-- Terminal outcome of one Bind attempt. -/
inductive BindOutcome
  | success
  | invalidCredentials
  | operationsError
deriving DecidableEq, Repr

/-- Observable trace of one Bind attempt: the LDAP result plus whether
getSession was invoked and which password (if any) was forwarded to the
upstream s.ldap.Bind. -/
structure BindTrace where
  outcome : BindOutcome
  sessionAcquired : Bool
  upstreamBindPw : Option (List Char)
deriving DecidableEq, Repr

/-- Bind (ldap.go:92-156).  `totpValidate code secret` is the
totp.Validate oracle, `sessionOk` tells whether getSession succeeds, and
`upstreamAccept dn pw` is the upstream s.ldap.Bind oracle.  The OTP gate
(ldap.go:103-137): unknown users and users without a secret skip
validation; with a secret, a password longer than 6 characters is split
into prefix password + trailing 6-character code, otherwise validation
fails outright and the upstream is never contacted. -/
def bindHandler (backend : BackendCfg) (handlers : List (List Char → Bool × User))
    (count : Int) (totpValidate : List Char → List Char → Bool)
    (sessionOk : Bool) (upstreamAccept : List Char → List Char → Bool)
    (bindDN pw : List Char) : BindTrace :=
  let userName := extractUserName backend bindDN
  let fu := chainWalk handlers count userName
  let otpr : Bool × List Char :=
    if !fu.1 then (true, pw)
    else if fu.2.otpSecret.length = 0 then (true, pw)
    else if pw.length > 6 then
      (totpValidate (pw.drop (pw.length - 6)) fu.2.otpSecret, pw.take (pw.length - 6))
    else (false, pw)
  if !otpr.1 then
    { outcome := .invalidCredentials, sessionAcquired := false, upstreamBindPw := none }
  else if !sessionOk then
    { outcome := .operationsError, sessionAcquired := true, upstreamBindPw := none }
  else if upstreamAccept bindDN otpr.2 then
    { outcome := .success, sessionAcquired := true, upstreamBindPw := some otpr.2 }
  else
    { outcome := .invalidCredentials, sessionAcquired := true, upstreamBindPw := some otpr.2 }

/-- ldap.EntryAttribute (name and values). -/
structure EntryAttribute where
  name : List Char
  values : List (List Char)
deriving DecidableEq, Repr

/-- ldap.Entry (DN and attribute list). -/
structure Entry where
  dn : List Char
  attributes : List EntryAttribute
deriving DecidableEq, Repr

/-- The upstream ldap.SearchResult. -/
structure SearchResult where
  entries : List Entry
  referrals : List (List Char)
  controls : List Nat
deriving DecidableEq, Repr

/-- ldap.ServerSearchResult returned to the client. -/
structure ServerSearchResult where
  entries : List Entry
  referrals : List (List Char)
  controls : List Nat
  resultCode : Nat
deriving DecidableEq, Repr

/-- The fields of ldap.SearchRequest the handler reads. -/
structure SearchRequest where
  baseDN : List Char
  scope : Int
  typesOnly : Bool
  filter : List Char
  attributes : List (List Char)
deriving Repr

/-- ldap.LDAPResultOperationsError = 1. -/
def ldapResultOperationsError : Nat := 1

/-- The character class [a-zA-Z0-9] of the ldapattributematcher regex
(ldap.go:25). -/
def isAlphaNum (c : Char) : Bool :=
  ('a' ≤ c && c ≤ 'z') || ('A' ≤ c && c ≤ 'Z') || ('0' ≤ c && c ≤ '9')

/-- The Go regexp Perl class \s = [\t\n\f\r ]. -/
def isRegexSpace (c : Char) : Bool :=
  c = ' ' || c = '\t' || c = '\n' || c = '\x0c' || c = '\r'

/-- One anchored attempt of the regex
`(?i)(?P<attribute>[a-zA-Z0-9]+)\s*=\s*(?P<value>.*)` at the start of
`s`: a nonempty alphanumeric run, optional spaces, a literal '=',
optional spaces, then `.*` (which stops at a newline).  Because '=' is
neither alphanumeric nor a space, the greedy runs are the only possible
match, so no further backtracking arises. -/
def matchAttrValAt (s : List Char) : Option (List Char × List Char) :=
  let attr := s.takeWhile isAlphaNum
  if attr.isEmpty then none
  else
    match (s.dropWhile isAlphaNum).dropWhile isRegexSpace with
    | '=' :: r3 =>
      some (attr, (r3.dropWhile isRegexSpace).takeWhile (fun c => c ≠ '\n'))
    | _ => none

/-- regexp.FindStringSubmatch for the matcher: try each start position
left to right (leftmost match), returning the attribute and value
captures, or none when the string has no match (Go returns nil and the
later attbits[1] access faults). -/
def findAttrVal : List Char → Option (List Char × List Char)
  | [] => none
  | c :: rest =>
    match matchAttrValAt (c :: rest) with
    | some r => some r
    | none => findAttrVal rest

/-- The scanning loop of buildReqAttributesList (ldap.go:282-294),
factored out of the recursion.  The Go loop tracks the index just after
the most recent '(' in `start`; here `start` holds the corresponding
suffix of the scanned string instead, so that at a ')' with tail `rest`
the parenthesized span filter[start:p] is `stored.take
(stored.length - rest.length - 1)`.  On '(' the start moves just past it
only when the '(' is not the last character (p+1 < maxp); on ')' with a
pending start the span is emitted and start resets. -/
def scanSpansAux : List Char → Option (List Char) → List (List Char) → List (List Char)
  | [], _, acc => acc
  | c :: rest, start, acc =>
    if c = '(' then
      scanSpansAux rest (if rest.isEmpty then start else some rest) acc
    else if c = ')' then
      match start with
      | some stored =>
        scanSpansAux rest none (acc ++ [stored.take (stored.length - rest.length - 1)])
      | none => scanSpansAux rest none acc
    else scanSpansAux rest start acc

/-- The parenthesized spans the Go loop would recurse on, in scan
order.  The loop descended iff this list is nonempty. -/
def scanSpans (filter : List Char) : List (List Char) :=
  scanSpansAux filter none []

/-- buildReqAttributesList (ldap.go:278-299) with an explicit fuel for
the recursion on spans.  Every span is strictly shorter than the
scanned string (lemma scanSpans_length_lt below), so fuel
filter.length + 1 never runs out (lemma bralFuel_fuel_eq); the Go
function recurses on each span as it scans, which appends leaves in
exactly the same order as folding over the span list here.  When no
span was found the string itself is appended as a leaf. -/
def bralFuel : Nat → List Char → List (List Char) → List (List Char)
  | 0, _, filters => filters
  | fuel + 1, filter, filters =>
    let spans := scanSpans filter
    if spans = [] then filters ++ [filter]
    else spans.foldl (fun acc sub => bralFuel fuel sub acc) filters

/-- buildReqAttributesList at adequate fuel. -/
def buildReqAttributesList (filter : List Char) (filters : List (List Char)) :
    List (List Char) :=
  bralFuel (filter.length + 1) filter filters

/-- The inner attribute scan of the backfill loop (ldap.go:244-253):
find the first attribute whose lowercased name equals the lowercased
filter attribute; when found and the filter value is empty, replace its
values by the single empty value; report whether a match was found. -/
def applyLeafToAttrs (ab : List Char × List Char) :
    List EntryAttribute → Bool × List EntryAttribute
  | [] => (false, [])
  | a :: rest =>
    if lowerStr a.name = lowerStr ab.1 then
      (true, (if ab.2.length = 0 then { a with values := [ab.2] } else a) :: rest)
    else
      let r := applyLeafToAttrs ab rest
      (r.1, a :: r.2)

/-- The per-entry backfill step (ldap.go:243-257): when no attribute
matched, append a new attribute carrying the filter's value
(ldap.go:254-256). -/
def applyLeafToEntry (ab : List Char × List Char) (e : Entry) : Entry :=
  let r := applyLeafToAttrs ab e.attributes
  if r.1 then { e with attributes := r.2 }
  else { e with attributes := e.attributes ++ [{ name := ab.1, values := [ab.2] }] }

/-- The entries loop for one leaf filter (ldap.go:243-257): `ab?` is the
FindStringSubmatch result; when it is nil the attbits[1] access inside
the loop body faults, but only if there is at least one entry to
iterate. -/
def backfillEntries (ab? : Option (List Char × List Char)) :
    List Entry → Except GoFault (List Entry)
  | [] => .ok []
  | e :: rest =>
    match ab? with
    | none => .error .indexOutOfRange
    | some ab => (backfillEntries (some ab) rest).map (fun r => applyLeafToEntry ab e :: r)

/-- The outer filters loop (ldap.go:241-258). -/
def backfillAll : List (List Char) → List Entry → Except GoFault (List Entry)
  | [], entries => .ok entries
  | f :: fs, entries =>
    match backfillEntries (findAttrVal f) entries with
    | .error p => .error p
    | .ok entries2 => backfillAll fs entries2

/-- The attribute list the backfill produces for an entry whose
attribute list is `attrs` before the filters loop, when every leaf
filter matches the regex (none when some leaf does not match). -/
def leafFoldAttrs : List (List Char) → List EntryAttribute → Option (List EntryAttribute)
  | [], attrs => some attrs
  | f :: fs, attrs =>
    match findAttrVal f with
    | none => none
    | some ab =>
      let r := applyLeafToAttrs ab attrs
      leafFoldAttrs fs (if r.1 then r.2 else attrs ++ [{ name := ab.1, values := [ab.2] }])

/-- Search (ldap.go:159-276).  `sessionOk` abstracts getSession
(ldap.go:180-184); `sr?`/`uerr` are the upstream s.ldap.Search response
(result pointer, error).  An attribute list of exactly ["1.1"] clears
wantAttributes and empties the forwarded list (ldap.go:167-170); a
TypesOnly request is remembered and cleared (ldap.go:174-177).  When the
upstream result pointer is nil every continuing path dereferences
sr.Entries (first at ldap.go:203, 210 or 243, unconditionally at
ldap.go:261), so the call faults.  The error is only examined after the
result set was rebuilt (ldap.go:266-272); a non-*ldap.Error error makes
the type assertion err.(*ldap.Error) fault. -/
inductive UpstreamErr
  | ldapErr (code : Nat)
  | otherErr
deriving DecidableEq, Repr

def searchHandler (sessionOk : Bool) (req : SearchRequest)
    (sr? : Option SearchResult) (uerr : Option UpstreamErr) :
    Except GoFault (ServerSearchResult × Option UpstreamErr) :=
  let wantAttributes : Bool :=
    match req.attributes with
    | [a] => !(a = "1.1".toList)
    | _ => true
  let wantTypesOnly := req.typesOnly
  if !sessionOk then
    .ok ({ entries := [], referrals := [], controls := [],
           resultCode := ldapResultOperationsError }, none)
  else
    match sr? with
    | none => .error .nilPointerDeref
    | some sr =>
      let entries1 :=
        if !wantAttributes then sr.entries.map (fun e => { e with attributes := [] })
        else sr.entries
      let entries2 :=
        if wantTypesOnly then
          entries1.map (fun e =>
            { e with attributes := e.attributes.map (fun a => { a with values := [] }) })
        else entries1
      let filters := buildReqAttributesList req.filter []
      match backfillAll filters entries2 with
      | .error p => .error p
      | .ok entries3 =>
        let ssr : ServerSearchResult :=
          { entries := entries3, referrals := sr.referrals,
            controls := sr.controls, resultCode := 0 }
        match uerr with
        | some (.ldapErr code) => .ok ({ ssr with resultCode := code }, some (.ldapErr code))
        | some .otherErr => .error .typeAssertFail
        | none => .ok (ssr, none)

/-! Concrete inputs used by counterexamples and witnesses. -/

/-- A client connection with a pooled session (C1). -/
def c1Conn : NetConn := ⟨"192.0.2.1:389".toList, "198.51.100.7:55555".toList, 7⟩

/-- Its pooled session, holding upstream connection handle 42. -/
def c1Session : LdapSession := ⟨connID c1Conn, c1Conn, some 42⟩

/-- A registry that was healthy at startup (C2). -/
def c2Servers : List LdapBackend := [⟨"ldap".toList, "a".toList, 389, .up, 5⟩]

/-- A plain-scheme endpoint, first in the registry (C3). -/
def c3A : LdapBackend := ⟨"ldap".toList, "a".toList, 389, .down, 0⟩

/-- An encrypted-scheme endpoint, second in the registry (C3). -/
def c3B : LdapBackend := ⟨"ldaps".toList, "b".toList, 636, .down, 0⟩

/-- Probe oracle: every TLS dial succeeds in 5ns (C3). -/
def c3DialTLS : List Char → Bool → Option Nat := fun _ _ => some 5

/-- Probe oracle: only endpoint a accepts plain dials (C3). -/
def c3DialPlain : List Char → Option Nat :=
  fun dest => if dest = dialDest c3A then some 3 else none

/-- A search request asking for no attributes via the "1.1" sentinel,
with an equality filter (C5). -/
def c5Req : SearchRequest := ⟨[], 0, false, "(cn=alice)".toList, ["1.1".toList]⟩

/-- An upstream result carrying one entry with a mail attribute (C5). -/
def c5Upstream : SearchResult := ⟨[⟨"dc=x".toList, [⟨"mail".toList, ["m".toList]⟩]⟩], [], []⟩

/-- A search request with filter (cn=alice) and the default attribute
list (C6). -/
def c6Req : SearchRequest := ⟨[], 0, false, "(cn=alice)".toList, []⟩

/-- An upstream result whose entry carries cn with its values stripped (C6). -/
def c6Upstream : SearchResult := ⟨[⟨"dc=x".toList, [⟨"cn".toList, []⟩]⟩], [], []⟩

/-- An Up endpoint whose recorded latency equals the 30-minute sentinel (C7). -/
def c7UpSlow : LdapBackend := ⟨"ldap".toList, "a".toList, 389, .up, forever⟩

/-- Backend configuration for the Bind witnesses (C8, C9). -/
def c8Backend : BackendCfg := ⟨"dc=glauth,dc=com".toList, "cn".toList⟩

/-- A handler chain that knows carol and her second-factor secret (C8). -/
def c8Handlers : List (List Char → Bool × User) := [fun _ => (true, ⟨"2FSECRET".toList⟩)]

/-- A handler chain in which no handler finds any user (C9). -/
def c9Handlers : List (List Char → Bool × User) := [fun _ => (false, ⟨"IGNORED".toList⟩)]

/-- A healthy upstream server (C10). -/
def c10Server : LdapBackend := ⟨"ldap".toList, "h".toList, 389, .up, 5⟩

/-- A pool with no session yet and one healthy server (C10). -/
def c10St : PoolState := ⟨[], [c10Server]⟩

/-- The client connection acquiring sessions (C10). -/
def c10Conn : NetConn := ⟨"L".toList, "R".toList, 3⟩

/-- Dial oracles: plain dials yield upstream handle 9, TLS handle 8 (C10). -/
def c10DialPlainOk : List Char → Except (List Char) Nat := fun _ => .ok 9

/-- TLS dial oracle for the success scenario (C10). -/
def c10DialTLSOk : List Char → Bool → Except (List Char) Nat := fun _ _ => .ok 8

/-- Dial oracle for the failure scenario: every plain dial is refused (C10). -/
def c10DialPlainFail : List Char → Except (List Char) Nat :=
  fun _ => .error "connection refused".toList

/-- The Up endpoints with ping below `bp`, in registry order (proof helper). -/
def eligUnder (bp : Nat) (l : List LdapBackend) : List LdapBackend :=
  l.filter (fun s => decide (s.status = .up ∧ s.ping < bp))

/-! ## Helper lemmas -/

theorem mapLookup_insert (id : List Char) (s : LdapSession)
    (m : List (List Char × LdapSession)) :
    mapLookup id (mapInsert id s m) = some s := by
  induction m with
  | nil => simp [mapInsert, mapLookup]
  | cons kv rest ih =>
    obtain ⟨k, v⟩ := kv
    by_cases h : k = id
    · simp [mapInsert, mapLookup, h]
    · simp [mapInsert, mapLookup, h, ih]

theorem chainWalkAux_all_not_found (userName : List Char) (count : Int)
    (hs : List (List Char → Bool × User)) (i : Int) (cur : Bool × User)
    (hall : ∀ f ∈ hs, (f userName).1 = false) (hcur : cur.1 = false) :
    (chainWalkAux userName count hs i cur).1 = false := by
  induction hs generalizing i cur with
  | nil => simpa [chainWalkAux] using hcur
  | cons h rest ih =>
    have hh : (h userName).1 = false := hall h (by simp)
    by_cases hc : i ≥ count
    · simp [chainWalkAux, hh, hc]
    · simp only [chainWalkAux, hh, Bool.false_eq_true, if_false, hc, if_neg]
      exact ih (i + 1) (h userName) (fun f hf => hall f (by simp [hf])) hh

/-! ## Claim theorems -/

/-- C1: the claim says Close closes the pooled upstream LDAP connection
and removes the session entry.  The code (ldap.go:324-332) removes the
entry and closes the client connection argument (handle 7), but never
closes the pooled upstream connection (handle 42): the upstream
connection leaks, contradicting the code's own comment and the spec. -/
theorem c1_close_removes_entry_but_never_closes_upstream :
    closeHandler [(connID c1Conn, c1Session)] [] [] c1Conn = ⟨none, [], [7], []⟩ ∧
    c1Session.ldap = some 42 ∧
    42 ∉ (closeHandler [(connID c1Conn, c1Session)] [] [] c1Conn).closedUpstreamConns :=
  ⟨by decide, by decide, by decide⟩

/-- C2: the claim says a post-startup probe cycle that finds zero
healthy backends is never fatal.  In the code the monitorServers loop
(ldap.go:342-363) calls os.Exit(1) whenever ping reports no healthy
servers, so a periodic cycle in which every dial fails terminates the
process even though startup had succeeded against c2Servers. -/
theorem c2_runtime_probe_cycle_with_zero_healthy_is_fatal :
    (pingServers false (fun _ _ => none) (fun _ => none) c2Servers).2 = false ∧
    monitorCycle false (fun _ _ => none) (fun _ => none) .timerTick c2Servers =
      (.exited 1, [⟨"ldap".toList, "a".toList, 389, .down, 0⟩]) :=
  ⟨by decide, by decide⟩

/-- C3: the claim says each endpoint is probed with its own configured
scheme.  The code (ldap.go:411,417) consults h.servers[0].Scheme for
every endpoint: with registry [c3A (ldap), c3B (ldaps)], endpoint c3B is
probed with a plain dial (which fails) and marked down with latency 0,
even though its own scheme is ldaps and the TLS dial oracle would have
succeeded with latency 5. -/
theorem c3_probe_uses_first_endpoints_scheme_for_all :
    c3B.scheme = "ldaps".toList ∧
    c3DialTLS (dialDest c3B) false = some 5 ∧
    pingServers false c3DialTLS c3DialPlain [c3A, c3B] =
      ([⟨"ldap".toList, "a".toList, 389, .up, 3⟩,
        ⟨"ldaps".toList, "b".toList, 636, .down, 0⟩], true) :=
  ⟨by decide, by decide, by decide⟩

/-- C4: the claim says Search always returns a well-formed result code
and never aborts for every upstream response, including an upstream
protocol error with a nil result set.  The code dereferences sr.Entries
(ldap.go:203,210,243,261) before the err check at ldap.go:266, so an
upstream response (nil, *ldap.Error) makes the handler fault with a nil
pointer dereference instead of returning a result. -/
theorem c4_search_faults_on_nil_upstream_result :
    searchHandler true ⟨[], 0, false, "(cn=alice)".toList, []⟩ none (some (.ldapErr 2)) =
      .error .nilPointerDeref := by
  decide

/-- C5 counterexample: the claim says a request whose attribute list is
exactly ["1.1"] yields entries with empty attribute lists no matter what
the filter was.  With filter (cn=alice) the backfill loop
(ldap.go:241-258) runs after the stripping (ldap.go:201-206) and
re-appends cn=alice, so the returned entry has a nonempty attribute
list. -/
theorem c5_sentinel_entries_not_empty_counterexample :
    c5Req.attributes = ["1.1".toList] ∧
    searchHandler true c5Req (some c5Upstream) none =
      .ok (⟨[⟨"dc=x".toList, [⟨"cn".toList, ["alice".toList]⟩]⟩], [], [], 0⟩, none) ∧
    ([⟨"cn".toList, ["alice".toList]⟩] : List EntryAttribute) ≠ [] :=
  ⟨by decide, by decide, by decide⟩

/-- C6 counterexample: the claim says an entry whose cn attribute came
back with its values stripped still ends up carrying the value alice.
The backfill (ldap.go:246-252) only rewrites the values of an already
present attribute when the filter's value is the empty string, so the
stripped cn stays empty and no attribute of the returned entry carries
alice. -/
theorem c6_present_attribute_values_not_rewritten_counterexample :
    searchHandler true c6Req (some c6Upstream) none =
      .ok (⟨[⟨"dc=x".toList, [⟨"cn".toList, []⟩]⟩], [], [], 0⟩, none) ∧
    "alice".toList ∉ (⟨"cn".toList, []⟩ : EntryAttribute).values :=
  ⟨by decide, by decide⟩

/-- C7 counterexample: the claim says the selector errors exactly when
no endpoint is up.  getBestServer (ldap.go:448-466) starts its running
best at 30 minutes and only admits servers with strictly smaller ping,
so a registry whose only endpoint is Up with a 30-minute recorded
latency yields the "no healthy servers" error although an endpoint is
up. -/
theorem c7_up_endpoint_at_sentinel_latency_rejected :
    c7UpSlow.status = .up ∧
    getBestServer [c7UpSlow] = .error ("No healthy servers found".toList) :=
  ⟨by decide, by decide⟩

/-- C8: for every user found in the handler chain with a non-empty
second-factor secret and a submitted password of length at most 6, Bind
returns invalid-credentials and never contacts the upstream: getSession
is not invoked and no password is forwarded to the upstream bind
(ldap.go:120-137). -/
theorem c8_short_password_with_secret_rejected_without_upstream
    (backend : BackendCfg) (handlers : List (List Char → Bool × User)) (count : Int)
    (totpValidate : List Char → List Char → Bool) (sessionOk : Bool)
    (upstreamAccept : List Char → List Char → Bool) (bindDN pw : List Char) (u : User)
    (hfound : chainWalk handlers count (extractUserName backend bindDN) = (true, u))
    (hsecret : u.otpSecret ≠ [])
    (hlen : pw.length ≤ 6) :
    bindHandler backend handlers count totpValidate sessionOk upstreamAccept bindDN pw =
      { outcome := .invalidCredentials, sessionAcquired := false, upstreamBindPw := none } := by
  have h2 : ¬ pw.length > 6 := by omega
  simp only [bindHandler, hfound]
  simp [List.length_eq_zero, hsecret, h2]

/-- C8 witness: carol is found by the chain with secret 2FSECRET and
binds with the 3-character password abc. -/
theorem c8_witness :
    chainWalk c8Handlers 1 (extractUserName c8Backend "cn=carol,dc=glauth,dc=com".toList) =
      (true, ⟨"2FSECRET".toList⟩) ∧
    "2FSECRET".toList ≠ ([] : List Char) ∧
    "abc".toList.length ≤ 6 ∧
    bindHandler c8Backend c8Handlers 1 (fun _ _ => true) true (fun _ _ => true)
      "cn=carol,dc=glauth,dc=com".toList "abc".toList =
      { outcome := .invalidCredentials, sessionAcquired := false, upstreamBindPw := none } :=
  ⟨by decide, by decide, by decide,
    c8_short_password_with_secret_rejected_without_upstream c8Backend c8Handlers 1
      (fun _ _ => true) true (fun _ _ => true) _ _ ⟨"2FSECRET".toList⟩
      (by decide) (by decide) (by decide)⟩

/-- C9: when every handler in the chain reports the extracted username
not found, Bind skips second-factor enforcement and proceeds to the
upstream credential check with the password unmodified: getSession is
invoked and the unchanged password is forwarded to the upstream bind,
whose verdict alone decides the outcome (ldap.go:108-132). -/
theorem c9_unknown_user_goes_upstream_with_unmodified_password
    (backend : BackendCfg) (handlers : List (List Char → Bool × User)) (count : Int)
    (totpValidate : List Char → List Char → Bool)
    (upstreamAccept : List Char → List Char → Bool) (bindDN pw : List Char)
    (hall : ∀ f ∈ handlers, (f (extractUserName backend bindDN)).1 = false) :
    bindHandler backend handlers count totpValidate true upstreamAccept bindDN pw =
      (if upstreamAccept bindDN pw then
        { outcome := .success, sessionAcquired := true, upstreamBindPw := some pw }
      else
        { outcome := .invalidCredentials, sessionAcquired := true, upstreamBindPw := some pw }) := by
  have hf : (chainWalk handlers count (extractUserName backend bindDN)).1 = false :=
    chainWalkAux_all_not_found _ _ _ _ _ hall rfl
  simp only [bindHandler, hf]
  by_cases hu : upstreamAccept bindDN pw <;> simp [hu]

/-- C9 witness: nobody in the chain knows the user mallory; the bind
with password secretpw goes upstream unmodified and succeeds there. -/
theorem c9_witness :
    (∀ f ∈ c9Handlers, (f (extractUserName c8Backend "cn=mallory,dc=glauth,dc=com".toList)).1 = false) ∧
    bindHandler c8Backend c9Handlers 1 (fun _ _ => true) true (fun _ _ => true)
      "cn=mallory,dc=glauth,dc=com".toList "secretpw".toList =
      { outcome := .success, sessionAcquired := true, upstreamBindPw := some "secretpw".toList } :=
  ⟨by decide, by
    have h := c9_unknown_user_goes_upstream_with_unmodified_password c8Backend c9Handlers 1
      (fun _ _ => true) (fun _ _ => true) "cn=mallory,dc=glauth,dc=com".toList
      "secretpw".toList (by decide)
    simpa using h⟩

theorem dialSelect_ldaps (dialTLS : List Char → Bool → Except (List Char) Nat)
    (dialPlain : List Char → Except (List Char) Nat) (insecure : Bool)
    (server : LdapBackend) (hs : server.scheme = "ldaps".toList) :
    dialSelect dialTLS dialPlain insecure server =
      (true, (dialTLS (dialDest server) insecure).map some) := by
  rw [dialSelect, if_pos hs]

theorem dialSelect_ldap (dialTLS : List Char → Bool → Except (List Char) Nat)
    (dialPlain : List Char → Except (List Char) Nat) (insecure : Bool)
    (server : LdapBackend) (hs : server.scheme = "ldap".toList) :
    dialSelect dialTLS dialPlain insecure server =
      (true, (dialPlain (dialDest server)).map some) := by
  have hx : ¬ (server.scheme = "ldaps".toList) := by rw [hs]; decide
  rw [dialSelect, if_neg hx, if_pos hs]

theorem dialSelect_other (dialTLS : List Char → Bool → Except (List Char) Nat)
    (dialPlain : List Char → Except (List Char) Nat) (insecure : Bool)
    (server : LdapBackend) (hs1 : ¬ server.scheme = "ldaps".toList)
    (hs2 : ¬ server.scheme = "ldap".toList) :
    dialSelect dialTLS dialPlain insecure server = (false, .ok none) := by
  rw [dialSelect, if_neg hs1, if_neg hs2]

/-- C10: part one, a second getSession with the same connection returns
the session the first call stored, leaves the state unchanged, and
neither selects a server nor dials (ldap.go:367-372); part two, when no
session exists, a server was selected and the dial fails, the dial error
is returned as is (no retry), the doPing trigger fires, and the session
map is left unchanged (ldap.go:388-394). -/
theorem c10_session_reuse_and_dial_failure_semantics :
    (∀ (dialTLS : List Char → Bool → Except (List Char) Nat)
       (dialPlain : List Char → Except (List Char) Nat)
       (insecure : Bool) (st : PoolState) (conn : NetConn) (s : LdapSession),
      (getSession dialTLS dialPlain insecure st conn).result = .ok s →
      getSession dialTLS dialPlain insecure
          (getSession dialTLS dialPlain insecure st conn).state conn =
        ⟨.ok s, (getSession dialTLS dialPlain insecure st conn).state,
          false, false, false⟩) ∧
    (∀ (dialTLS : List Char → Bool → Except (List Char) Nat)
       (dialPlain : List Char → Except (List Char) Nat)
       (insecure : Bool) (st : PoolState) (conn : NetConn)
       (server : LdapBackend) (e : List Char),
      mapLookup (connID conn) st.sessions = none →
      getBestServer st.servers = .ok server →
      ((server.scheme = "ldaps".toList ∧ dialTLS (dialDest server) insecure = .error e) ∨
       (server.scheme = "ldap".toList ∧ dialPlain (dialDest server) = .error e)) →
      getSession dialTLS dialPlain insecure st conn = ⟨.error e, st, true, true, true⟩) := by
  constructor
  · intro dialTLS dialPlain insecure st conn s hok
    cases hl : mapLookup (connID conn) st.sessions with
    | some s0 =>
      have h1 : getSession dialTLS dialPlain insecure st conn = ⟨.ok s0, st, false, false, false⟩ := by
        simp only [getSession, hl]
      rw [h1] at hok ⊢
      cases hok
      simp only [getSession, hl]
    | none =>
      cases hb : getBestServer st.servers with
      | error e =>
        have h1 : (getSession dialTLS dialPlain insecure st conn).result = .error e := by
          simp only [getSession, hl, hb]
        rw [hok] at h1
        cases h1
      | ok server =>
        cases hd : (dialSelect dialTLS dialPlain insecure server).2 with
        | error e =>
          have h1 : (getSession dialTLS dialPlain insecure st conn).result = .error e := by
            simp only [getSession, hl, hb, hd]
          rw [hok] at h1
          cases h1
        | ok l =>
          have h1 : getSession dialTLS dialPlain insecure st conn =
              ⟨.ok ⟨connID conn, conn, l⟩,
                { st with sessions := mapInsert (connID conn) ⟨connID conn, conn, l⟩ st.sessions },
                true, (dialSelect dialTLS dialPlain insecure server).1, false⟩ := by
            simp only [getSession, hl, hb, hd]
          rw [h1] at hok ⊢
          cases hok
          simp only [getSession, mapLookup_insert]
  · intro dialTLS dialPlain insecure st conn server e hl hb hd
    rcases hd with ⟨hs1, hd⟩ | ⟨hs2, hd⟩
    · have hsel : dialSelect dialTLS dialPlain insecure server = (true, .error e) := by
        rw [dialSelect_ldaps dialTLS dialPlain insecure server hs1, hd]
        rfl
      simp only [getSession, hl, hb, hsel]
    · have hsel : dialSelect dialTLS dialPlain insecure server = (true, .error e) := by
        rw [dialSelect_ldap dialTLS dialPlain insecure server hs2, hd]
        rfl
      simp only [getSession, hl, hb, hsel]

/-- C10 witness: a fresh pool with one healthy plain-scheme server; the
first acquisition stores session (id, conn, handle 9) and the second
returns it untouched; with the refusing dial oracle the dial error comes
back verbatim and the pool state is untouched. -/
theorem c10_witness :
    (getSession c10DialTLSOk c10DialPlainOk false c10St c10Conn).result =
      .ok ⟨connID c10Conn, c10Conn, some 9⟩ ∧
    getSession c10DialTLSOk c10DialPlainOk false
        (getSession c10DialTLSOk c10DialPlainOk false c10St c10Conn).state c10Conn =
      ⟨.ok ⟨connID c10Conn, c10Conn, some 9⟩,
        (getSession c10DialTLSOk c10DialPlainOk false c10St c10Conn).state,
        false, false, false⟩ ∧
    mapLookup (connID c10Conn) c10St.sessions = none ∧
    getBestServer c10St.servers = .ok c10Server ∧
    c10DialPlainFail (dialDest c10Server) = .error "connection refused".toList ∧
    getSession c10DialTLSOk c10DialPlainFail false c10St c10Conn =
      ⟨.error "connection refused".toList, c10St, true, true, true⟩ :=
  ⟨by decide,
    c10_session_reuse_and_dial_failure_semantics.1 _ _ _ _ _ _ (by decide),
    by decide, by decide, by decide,
    c10_session_reuse_and_dial_failure_semantics.2 c10DialTLSOk c10DialPlainFail false
      c10St c10Conn c10Server _ (by decide) (by decide) (Or.inr ⟨by decide, by decide⟩)⟩

theorem foldMin_cons (b s : LdapBackend) (l : List LdapBackend) :
    foldMin b (s :: l) = foldMin (if s.ping < b.ping then s else b) l := rfl

theorem foldMin_ping_le (l : List LdapBackend) :
    ∀ b : LdapBackend, (foldMin b l).ping ≤ b.ping := by
  induction l with
  | nil => exact fun _ => le_refl _
  | cons s rest ih =>
    intro b
    rw [foldMin_cons]
    by_cases h : s.ping < b.ping
    · rw [if_pos h]
      have h3 := ih s
      omega
    · rw [if_neg h]
      exact ih b

theorem eligUnder_cons_pos (bp : Nat) (s : LdapBackend) (l : List LdapBackend)
    (h : s.status = .up ∧ s.ping < bp) :
    eligUnder bp (s :: l) = s :: eligUnder bp l := by
  simp [eligUnder, List.filter_cons, h.1, h.2]

theorem eligUnder_cons_neg (bp : Nat) (s : LdapBackend) (l : List LdapBackend)
    (h : ¬ (s.status = .up ∧ s.ping < bp)) :
    eligUnder bp (s :: l) = eligUnder bp l := by
  simp only [eligUnder, List.filter_cons, decide_eq_true_eq]
  rw [if_neg h]

theorem eligUnder_mem {bp : Nat} {l : List LdapBackend} {s : LdapBackend}
    (h : s ∈ eligUnder bp l) : s.status = .up ∧ s.ping < bp := by
  have h2 := List.mem_filter.mp h
  exact of_decide_eq_true h2.2

theorem foldMin_eligUnder_indep (l : List LdapBackend) :
    ∀ (b : LdapBackend) (bp1 bp2 : Nat), b.ping ≤ bp1 → b.ping ≤ bp2 →
      foldMin b (eligUnder bp1 l) = foldMin b (eligUnder bp2 l) := by
  induction l with
  | nil => intro b bp1 bp2 _ _; rfl
  | cons s rest ih =>
    intro b bp1 bp2 h1 h2
    by_cases hup : s.status = .up
    · by_cases ha : s.ping < bp1
      · by_cases hb2 : s.ping < bp2
        · rw [eligUnder_cons_pos bp1 s rest ⟨hup, ha⟩, eligUnder_cons_pos bp2 s rest ⟨hup, hb2⟩,
            foldMin_cons, foldMin_cons]
          by_cases hsb : s.ping < b.ping
          · rw [if_pos hsb]
            exact ih s bp1 bp2 (le_of_lt ha) (le_of_lt hb2)
          · rw [if_neg hsb]
            exact ih b bp1 bp2 h1 h2
        · rw [eligUnder_cons_pos bp1 s rest ⟨hup, ha⟩,
            eligUnder_cons_neg bp2 s rest (fun hc => hb2 hc.2), foldMin_cons]
          have hsb : ¬ s.ping < b.ping := by omega
          rw [if_neg hsb]
          exact ih b bp1 bp2 h1 h2
      · by_cases hb2 : s.ping < bp2
        · rw [eligUnder_cons_neg bp1 s rest (fun hc => ha hc.2),
            eligUnder_cons_pos bp2 s rest ⟨hup, hb2⟩, foldMin_cons]
          have hsb : ¬ s.ping < b.ping := by omega
          rw [if_neg hsb]
          exact ih b bp1 bp2 h1 h2
        · rw [eligUnder_cons_neg bp1 s rest (fun hc => ha hc.2),
            eligUnder_cons_neg bp2 s rest (fun hc => hb2 hc.2)]
          exact ih b bp1 bp2 h1 h2
    · rw [eligUnder_cons_neg bp1 s rest (fun hc => hup hc.1),
        eligUnder_cons_neg bp2 s rest (fun hc => hup hc.1)]
      exact ih b bp1 bp2 h1 h2

theorem bestLoop_eq_filter (l : List LdapBackend) :
    ∀ (fav : LdapBackend) (bp : Nat),
      bestLoop l fav bp =
        match eligUnder bp l with
        | [] => (fav, bp)
        | e :: es => (foldMin e es, (foldMin e es).ping) := by
  induction l with
  | nil => intro fav bp; rfl
  | cons s rest ih =>
    intro fav bp
    by_cases hc : s.status = .up ∧ s.ping < bp
    · have hstep : bestLoop (s :: rest) fav bp = bestLoop rest s s.ping := by
        simp [bestLoop, hc]
      rw [hstep, ih s s.ping, eligUnder_cons_pos bp s rest hc]
      show _ = (foldMin s (eligUnder bp rest), (foldMin s (eligUnder bp rest)).ping)
      have hindep : foldMin s (eligUnder bp rest) = foldMin s (eligUnder s.ping rest) :=
        foldMin_eligUnder_indep rest s bp s.ping (le_of_lt hc.2) (le_refl _)
      rw [hindep]
      cases he : eligUnder s.ping rest with
      | nil => rfl
      | cons e es =>
        have hmem : e ∈ eligUnder s.ping rest := by
          rw [he]; exact List.mem_cons_self _ _
        have helig := eligUnder_mem hmem
        show (foldMin e es, (foldMin e es).ping) = _
        rw [foldMin_cons, if_pos helig.2]
    · have hstep : bestLoop (s :: rest) fav bp = bestLoop rest fav bp := by
        simp [bestLoop, hc]
      rw [hstep, ih fav bp, eligUnder_cons_neg bp s rest hc]

/-- C7 amended: getBestServer coincides with the spec selector amended
by the 30-minute sentinel: among endpoints that are up AND have latency
strictly below 30 minutes it returns the first one of minimal latency
(registry order breaks ties, because only a strictly smaller ping
replaces the running favorite), and it errors exactly when no endpoint
is up with latency below 30 minutes. -/
theorem c7_getBestServer_refines_amended_spec (servers : List LdapBackend) :
    getBestServer servers = specBestServer servers := by
  simp only [getBestServer, specBestServer]
  rw [bestLoop_eq_filter servers emptyBackend forever,
    show servers.filter eligible = eligUnder forever servers from rfl]
  cases he : eligUnder forever servers with
  | nil => simp
  | cons e es =>
    have hmem : e ∈ eligUnder forever servers := by
      rw [he]; exact List.mem_cons_self _ _
    have helig := eligUnder_mem hmem
    have hping : (foldMin e es).ping < forever :=
      lt_of_le_of_lt (foldMin_ping_le es e) helig.2
    have hne : ¬ ((foldMin e es).ping = forever) := by omega
    show (if (foldMin e es, (foldMin e es).ping).2 = forever then _ else _) = _
    rw [if_neg hne]

theorem applyLeafToEntry_mk (ab : List Char × List Char) (e : Entry) (X : List EntryAttribute) :
    applyLeafToEntry ab { e with attributes := X } =
      { e with attributes :=
          if (applyLeafToAttrs ab X).1 then (applyLeafToAttrs ab X).2
          else X ++ [{ name := ab.1, values := [ab.2] }] } := by
  simp only [applyLeafToEntry]
  by_cases h : (applyLeafToAttrs ab X).1 <;> simp [h]

theorem backfillEntries_some (ab : List Char × List Char) (l : List Entry) :
    backfillEntries (some ab) l = .ok (l.map (applyLeafToEntry ab)) := by
  induction l with
  | nil => rfl
  | cons e rest ih => simp [backfillEntries, ih, Except.map]

theorem backfillAll_uniform (fs : List (List Char)) :
    ∀ (X Y : List EntryAttribute) (entries : List Entry),
      leafFoldAttrs fs X = some Y →
      backfillAll fs (entries.map (fun e => { e with attributes := X })) =
        .ok (entries.map (fun e => { e with attributes := Y })) := by
  induction fs with
  | nil =>
    intro X Y entries h
    simp only [leafFoldAttrs, Option.some.injEq] at h
    cases h
    rfl
  | cons f rest ih =>
    intro X Y entries h
    simp only [leafFoldAttrs] at h
    cases hf : findAttrVal f with
    | none => rw [hf] at h; cases h
    | some ab =>
      rw [hf] at h
      simp only [backfillAll, hf, backfillEntries_some]
      rw [List.map_map]
      have hcomp : ((applyLeafToEntry ab) ∘ (fun e : Entry => { e with attributes := X })) =
          (fun e : Entry => { e with attributes :=
            if (applyLeafToAttrs ab X).1 then (applyLeafToAttrs ab X).2
            else X ++ [{ name := ab.1, values := [ab.2] }] }) := by
        funext e
        exact applyLeafToEntry_mk ab e X
      rw [hcomp]
      exact ih _ Y entries h

/-- C5 amended: for requests whose attribute list is exactly ["1.1"],
every upstream attribute is stripped, but the filter backfill then
re-inserts attributes derived from the filter's leaf clauses: every
returned entry's attribute list equals the backfill fold over the leaf
clauses starting from the empty list — the same list A for every entry,
independent of whatever attributes the upstream returned (it is empty
only when the filter's leaves contribute nothing). -/
theorem c5_amended_strip_then_backfill
    (bd : List Char) (sc : Int) (tOnly : Bool) (filter : List Char)
    (entries : List Entry) (refs : List (List Char)) (ctrls : List Nat)
    (A : List EntryAttribute)
    (hA : leafFoldAttrs (buildReqAttributesList filter []) [] = some A) :
    searchHandler true ⟨bd, sc, tOnly, filter, ["1.1".toList]⟩
        (some ⟨entries, refs, ctrls⟩) none =
      .ok (⟨entries.map (fun e => { e with attributes := A }), refs, ctrls, 0⟩, none) := by
  have hback := backfillAll_uniform (buildReqAttributesList filter []) [] A entries hA
  cases tOnly with
  | false => simp [searchHandler, hback]
  | true =>
    simp only [searchHandler, Bool.not_true, Bool.not_false, decide_True, Bool.not_not,
      Bool.false_eq_true, if_false, if_true, List.map_map]
    have hfuneq : ((fun e : Entry =>
        { dn := e.dn,
          attributes := List.map (fun a : EntryAttribute => { name := a.name, values := ([] : List (List Char)) }) e.attributes }) ∘
        fun e : Entry => { dn := e.dn, attributes := ([] : List EntryAttribute) }) =
        fun e : Entry => ({ dn := e.dn, attributes := [] } : Entry) :=
      funext fun e => rfl
    rw [hfuneq, hback]

theorem applyLeafToAttrs_names (ab : List Char × List Char) (attrs : List EntryAttribute) :
    ((applyLeafToAttrs ab attrs).2).map (fun a => a.name) = attrs.map (fun a => a.name) := by
  induction attrs with
  | nil => rfl
  | cons a rest ih =>
    simp only [applyLeafToAttrs]
    by_cases h : lowerStr a.name = lowerStr ab.1
    · rw [if_pos h]
      by_cases h2 : ab.2.length = 0 <;> simp [h2]
    · rw [if_neg h]
      simp [ih]

theorem applyLeafToAttrs_found (ab : List Char × List Char) (attrs : List EntryAttribute)
    (h : (applyLeafToAttrs ab attrs).1 = true) :
    ∃ a ∈ (applyLeafToAttrs ab attrs).2, lowerStr a.name = lowerStr ab.1 := by
  induction attrs with
  | nil => cases h
  | cons a rest ih =>
    by_cases hm : lowerStr a.name = lowerStr ab.1
    · simp only [applyLeafToAttrs, if_pos hm]
      refine ⟨_, List.mem_cons_self _ _, ?_⟩
      by_cases h2 : ab.2.length = 0 <;> simp [h2, hm]
    · simp only [applyLeafToAttrs, if_neg hm] at h ⊢
      obtain ⟨x, hx, hxe⟩ := ih h
      exact ⟨x, List.mem_cons_of_mem _ hx, hxe⟩

theorem applyLeafToAttrs_not_found (ab : List Char × List Char) (attrs : List EntryAttribute)
    (h : ∀ a ∈ attrs, lowerStr a.name ≠ lowerStr ab.1) :
    applyLeafToAttrs ab attrs = (false, attrs) := by
  induction attrs with
  | nil => rfl
  | cons a rest ih =>
    have hm : ¬ lowerStr a.name = lowerStr ab.1 := h a (List.mem_cons_self _ _)
    simp only [applyLeafToAttrs, if_neg hm,
      ih (fun x hx => h x (List.mem_cons_of_mem _ hx))]

theorem applyLeafToEntry_not_found (ab : List Char × List Char) (e : Entry)
    (h : ∀ a ∈ e.attributes, lowerStr a.name ≠ lowerStr ab.1) :
    applyLeafToEntry ab e =
      { e with attributes := e.attributes ++ [{ name := ab.1, values := [ab.2] }] } := by
  have hnf := applyLeafToAttrs_not_found ab e.attributes h
  simp only [applyLeafToEntry, hnf, Bool.false_eq_true, if_false]

theorem applyLeafToEntry_has (ab : List Char × List Char) (e : Entry) :
    ∃ a ∈ (applyLeafToEntry ab e).attributes, lowerStr a.name = lowerStr ab.1 := by
  by_cases hf : (applyLeafToAttrs ab e.attributes).1 = true
  · simp only [applyLeafToEntry, hf, if_true]
    exact applyLeafToAttrs_found ab e.attributes hf
  · have hf2 : (applyLeafToAttrs ab e.attributes).1 = false := by
      cases hx : (applyLeafToAttrs ab e.attributes).1
      · rfl
      · exact absurd hx hf
    simp only [applyLeafToEntry, hf2, Bool.false_eq_true, if_false]
    refine ⟨{ name := ab.1, values := [ab.2] }, ?_, rfl⟩
    simp

theorem applyLeafToEntry_keeps (ab : List Char × List Char) (e : Entry)
    (P : List Char → Prop) (h : ∃ a ∈ e.attributes, P a.name) :
    ∃ a ∈ (applyLeafToEntry ab e).attributes, P a.name := by
  obtain ⟨a, ha, hP⟩ := h
  have hname : a.name ∈ (applyLeafToEntry ab e).attributes.map (fun x => x.name) := by
    by_cases hf : (applyLeafToAttrs ab e.attributes).1 = true
    · simp only [applyLeafToEntry, hf, if_true]
      rw [applyLeafToAttrs_names]
      exact List.mem_map_of_mem _ ha
    · have hf2 : (applyLeafToAttrs ab e.attributes).1 = false := by
        cases hx : (applyLeafToAttrs ab e.attributes).1
        · rfl
        · exact absurd hx hf
      simp only [applyLeafToEntry, hf2, Bool.false_eq_true, if_false, List.map_append]
      exact List.mem_append_left _ (List.mem_map_of_mem _ ha)
  obtain ⟨a2, ha2, heq⟩ := List.mem_map.mp hname
  refine ⟨a2, ha2, ?_⟩
  rw [heq]
  exact hP

theorem backfillAll_preserves (P : List Char → Prop) (fs : List (List Char)) :
    ∀ (l res : List Entry), backfillAll fs l = .ok res →
      (∀ e ∈ l, ∃ a ∈ e.attributes, P a.name) → ∀ e ∈ res, ∃ a ∈ e.attributes, P a.name := by
  induction fs with
  | nil =>
    intro l res h hP
    simp only [backfillAll, Except.ok.injEq] at h
    subst h
    exact hP
  | cons f rest ih =>
    intro l res h hP
    cases hf : findAttrVal f with
    | none =>
      cases l with
      | nil =>
        simp only [backfillAll, hf, backfillEntries] at h
        exact ih [] res h (by intro e he; cases he)
      | cons e l2 =>
        simp [backfillAll, hf, backfillEntries] at h
    | some ab =>
      simp only [backfillAll, hf, backfillEntries_some] at h
      refine ih _ res h ?_
      intro e he
      obtain ⟨e0, he0, rfl⟩ := List.mem_map.mp he
      exact applyLeafToEntry_keeps ab e0 P (hP e0 he0)

theorem backfillAll_establishes (leaf : List Char) (ab : List Char × List Char)
    (hleaf : findAttrVal leaf = some ab) (fs : List (List Char)) :
    ∀ (l res : List Entry), leaf ∈ fs → backfillAll fs l = .ok res →
      ∀ e ∈ res, ∃ a ∈ e.attributes, lowerStr a.name = lowerStr ab.1 := by
  induction fs with
  | nil =>
    intro l res hmem
    cases hmem
  | cons f rest ih =>
    intro l res hmem h
    rcases List.mem_cons.mp hmem with heq | hmem2
    · subst heq
      simp only [backfillAll, hleaf, backfillEntries_some] at h
      refine backfillAll_preserves (fun n => lowerStr n = lowerStr ab.1) rest _ res h ?_
      intro e he
      obtain ⟨e0, he0, rfl⟩ := List.mem_map.mp he
      exact applyLeafToEntry_has ab e0
    · cases hf : findAttrVal f with
      | none =>
        cases l with
        | nil =>
          simp only [backfillAll, hf, backfillEntries] at h
          exact ih [] res hmem2 h
        | cons e l2 =>
          simp [backfillAll, hf, backfillEntries] at h
      | some ab2 =>
        simp only [backfillAll, hf, backfillEntries_some] at h
        exact ih _ res hmem2 h

/-- C6 amended: every entry of a successful Search result whose filter
leaves include cn=alice carries an attribute named cn (case-insensitive);
and, for the filter (cn=alice) with default attribute handling, an entry
that lacked a cn attribute gains exactly one carrying the single value
alice while entries keep their other attributes; the value alice is NOT
forced onto an already present cn attribute (see the counterexample). -/
theorem c6_cn_attribute_present_appended_only_when_absent :
    (∀ (sessionOk : Bool) (req : SearchRequest) (sr? : Option SearchResult)
       (uerr : Option UpstreamErr) (ssr : ServerSearchResult) (oerr : Option UpstreamErr),
      searchHandler sessionOk req sr? uerr = .ok (ssr, oerr) →
      "cn=alice".toList ∈ buildReqAttributesList req.filter [] →
      ∀ e ∈ ssr.entries, ∃ a ∈ e.attributes, lowerStr a.name = "cn".toList) ∧
    (∀ (bd : List Char) (sc : Int) (entries : List Entry) (refs : List (List Char))
       (ctrls : List Nat),
      (∀ e ∈ entries, ∀ a ∈ e.attributes, lowerStr a.name ≠ "cn".toList) →
      searchHandler true ⟨bd, sc, false, "(cn=alice)".toList, []⟩
          (some ⟨entries, refs, ctrls⟩) none =
        .ok (⟨entries.map (fun e =>
          { e with attributes := e.attributes ++ [{ name := "cn".toList, values := ["alice".toList] }] }),
          refs, ctrls, 0⟩, none)) := by
  have hfa : findAttrVal "cn=alice".toList = some ("cn".toList, "alice".toList) := by decide
  have hlow : lowerStr (("cn".toList, "alice".toList) : List Char × List Char).1 = "cn".toList := by decide
  constructor
  · intro sessionOk req sr? uerr ssr oerr h hmem
    cases sessionOk with
    | false =>
      simp only [searchHandler, Bool.not_false, if_true, Except.ok.injEq, Prod.mk.injEq] at h
      rw [← h.1]
      intro e he
      cases he
    | true =>
      cases sr? with
      | none => simp [searchHandler] at h
      | some sr =>
        simp only [searchHandler, Bool.not_true, Bool.false_eq_true, if_false] at h
        split at h
        · exact absurd h (by simp)
        · rename_i entries3 heq
          cases uerr with
          | none =>
            simp only [Except.ok.injEq, Prod.mk.injEq] at h
            rw [← h.1]
            intro e he
            have hres := backfillAll_establishes "cn=alice".toList ("cn".toList, "alice".toList)
              hfa (buildReqAttributesList req.filter []) _ entries3 hmem heq e he
            rw [hlow] at hres
            exact hres
          | some ue =>
            cases ue with
            | ldapErr code =>
              simp only [Except.ok.injEq, Prod.mk.injEq] at h
              rw [← h.1]
              intro e he
              have hres := backfillAll_establishes "cn=alice".toList ("cn".toList, "alice".toList)
                hfa (buildReqAttributesList req.filter []) _ entries3 hmem heq e he
              rw [hlow] at hres
              exact hres
            | otherErr => simp at h
  · intro bd sc entries refs ctrls hnone
    have hfilters : buildReqAttributesList "(cn=alice)".toList [] = ["cn=alice".toList] := by decide
    have hstep : backfillAll ["cn=alice".toList] entries =
        .ok (entries.map (applyLeafToEntry ("cn".toList, "alice".toList))) := by
      simp only [backfillAll, hfa, backfillEntries_some]
    have hmapeq : entries.map (applyLeafToEntry ("cn".toList, "alice".toList)) =
        entries.map (fun e =>
          { e with attributes := e.attributes ++ [{ name := "cn".toList, values := ["alice".toList] }] }) := by
      apply List.map_congr_left
      intro e he
      apply applyLeafToEntry_not_found
      intro a ha
      rw [hlow]
      exact hnone e he a ha
    simp only [searchHandler, Bool.not_true, Bool.false_eq_true, if_false, if_true,
      hfilters, hstep, hmapeq]

theorem scanSpansAux_mem_length :
    ∀ (rem : List Char) (start : Option (List Char)) (acc : List (List Char)) (bound : Nat),
      rem.length ≤ bound → (∀ st, start = some st → st.length < bound) →
      ∀ sub ∈ scanSpansAux rem start acc, sub ∈ acc ∨ sub.length < bound := by
  intro rem
  induction rem with
  | nil =>
    intro start acc bound _ _ sub hsub
    exact Or.inl hsub
  | cons c rest ih =>
    intro start acc bound hlen hst sub hsub
    by_cases hc1 : c = '('
    · simp only [scanSpansAux] at hsub
      rw [if_pos hc1] at hsub
      refine ih _ acc bound (by simp at hlen; omega) ?_ sub hsub
      intro st hsteq
      by_cases hre : rest.isEmpty
      · rw [if_pos hre] at hsteq
        exact hst st hsteq
      · rw [if_neg hre] at hsteq
        cases hsteq
        simp at hlen
        omega
    · by_cases hc2 : c = ')'
      · simp only [scanSpansAux] at hsub
        rw [if_neg hc1, if_pos hc2] at hsub
        cases hstart : start with
        | some stored =>
          rw [hstart] at hsub
          have hres := ih none (acc ++ [stored.take (stored.length - rest.length - 1)]) bound
            (by simp at hlen; omega) (by intro st h; cases h) sub hsub
          rcases hres with hin | hlt
          · rcases List.mem_append.mp hin with hin2 | hin3
            · exact Or.inl hin2
            · right
              have hsl := hst stored hstart
              have : sub = stored.take (stored.length - rest.length - 1) := by
                simpa using hin3
              rw [this]
              have := List.length_take (stored.length - rest.length - 1) stored
              omega
          · exact Or.inr hlt
        | none =>
          rw [hstart] at hsub
          exact ih none acc bound (by simp at hlen; omega) (by intro st h; cases h) sub hsub
      · simp only [scanSpansAux] at hsub
        rw [if_neg hc1, if_neg hc2] at hsub
        exact ih start acc bound (by simp at hlen; omega) hst sub hsub

theorem scanSpans_length_lt (filter : List Char) :
    ∀ sub ∈ scanSpans filter, sub.length < filter.length := by
  intro sub hsub
  have := scanSpansAux_mem_length filter none [] filter.length (le_refl _)
    (by intro st h; cases h) sub hsub
  rcases this with hin | hlt
  · cases hin
  · exact hlt

theorem bralFuel_adequate :
    ∀ (n : Nat) (filter : List Char), filter.length ≤ n →
      ∀ (filters : List (List Char)) (f1 f2 : Nat),
        filter.length < f1 → filter.length < f2 →
        bralFuel f1 filter filters = bralFuel f2 filter filters := by
  intro n
  induction n with
  | zero =>
    intro filter hlen filters f1 f2 h1 h2
    obtain ⟨f1p, rfl⟩ : ∃ k, f1 = k + 1 := ⟨f1 - 1, by omega⟩
    obtain ⟨f2p, rfl⟩ : ∃ k, f2 = k + 1 := ⟨f2 - 1, by omega⟩
    have hfe : filter = [] := List.length_eq_zero.mp (by omega)
    subst hfe
    rfl
  | succ n ih =>
    intro filter hlen filters f1 f2 h1 h2
    obtain ⟨f1p, rfl⟩ : ∃ k, f1 = k + 1 := ⟨f1 - 1, by omega⟩
    obtain ⟨f2p, rfl⟩ : ∃ k, f2 = k + 1 := ⟨f2 - 1, by omega⟩
    simp only [bralFuel]
    by_cases hs : scanSpans filter = []
    · rw [if_pos hs, if_pos hs]
    · rw [if_neg hs, if_neg hs]
      have hprop : ∀ sub ∈ scanSpans filter, sub.length ≤ n ∧ sub.length < f1p ∧ sub.length < f2p := by
        intro sub hsub2
        have hl := scanSpans_length_lt filter sub hsub2
        omega
      clear hs h1 h2 hlen
      revert hprop
      generalize scanSpans filter = spans
      induction spans generalizing filters with
      | nil => intro _; rfl
      | cons s rest ihs =>
        intro hprop
        simp only [List.foldl_cons]
        have hp := hprop s (by simp)
        rw [ih s hp.1 filters f1p f2p hp.2.1 hp.2.2]
        exact ihs (bralFuel f2p s filters) (fun sub hsub => hprop sub (by simp [hsub]))

theorem bralFuel_eq_buildReqAttributesList (filter : List Char) (filters : List (List Char))
    (f : Nat) (hf : filter.length < f) :
    bralFuel f filter filters = buildReqAttributesList filter filters :=
  bralFuel_adequate (max filter.length filter.length) filter (by omega) filters f
    (filter.length + 1) hf (by omega)

/-- C5 amended witness: filter (cn=alice) with the ["1.1"] sentinel; the
upstream mail attribute disappears and the single backfilled cn=alice
attribute remains. -/
theorem c5_amended_witness :
    leafFoldAttrs (buildReqAttributesList "(cn=alice)".toList []) [] =
      some [{ name := "cn".toList, values := ["alice".toList] }] ∧
    searchHandler true ⟨[], 0, false, "(cn=alice)".toList, ["1.1".toList]⟩
        (some ⟨[⟨"dc=x".toList, [⟨"mail".toList, ["m".toList]⟩]⟩], [], []⟩) none =
      .ok (⟨[⟨"dc=x".toList, [{ name := "cn".toList, values := ["alice".toList] }]⟩],
        [], [], 0⟩, none) :=
  ⟨by decide,
    c5_amended_strip_then_backfill [] 0 false "(cn=alice)".toList
      [⟨"dc=x".toList, [⟨"mail".toList, ["m".toList]⟩]⟩] [] []
      [{ name := "cn".toList, values := ["alice".toList] }] (by decide)⟩

/-- C6 amended witness: an entry carrying only mail gains the appended
cn=alice attribute. -/
theorem c6_amended_witness :
    (∀ e ∈ [(⟨"dc=x".toList, [⟨"mail".toList, ["m".toList]⟩]⟩ : Entry)],
      ∀ a ∈ e.attributes, lowerStr a.name ≠ "cn".toList) ∧
    searchHandler true ⟨[], 0, false, "(cn=alice)".toList, []⟩
        (some ⟨[⟨"dc=x".toList, [⟨"mail".toList, ["m".toList]⟩]⟩], [], []⟩) none =
      .ok (⟨[⟨"dc=x".toList, [⟨"mail".toList, ["m".toList]⟩,
        { name := "cn".toList, values := ["alice".toList] }]⟩], [], [], 0⟩, none) :=
  ⟨by decide,
    c6_cn_attribute_present_appended_only_when_absent.2 [] 0
      [⟨"dc=x".toList, [⟨"mail".toList, ["m".toList]⟩]⟩] [] [] (by decide)⟩
